import Mathlib

set_option maxRecDepth 100000

/-!
Shallow embedding of the STL bounding-box extractor of this repository
(`check_single_stl.py::get_info`, whose algorithm is shared verbatim by the
main body of `analyze_stl.py`), together with the directory-scan driver and
the `with open(...)` resource discipline.

Modelling choices:

* A file is a `List Nat` of bytes; `f.read(k)` is `take k` / `drop k`
  (Python's `read` returns *up to* `k` bytes and never raises on a short
  read; only `struct.unpack` raises, when its buffer length is wrong).
* A 32-bit float is decoded exactly.  Every finite binary32 value is an
  integer multiple of 2^(-150) in the encoding used here (normals scaled by
  2^e, subnormals by 2), so a value is represented as `FVal`:
  `nan`, `negInf`, `posInf`, or `fin M` meaning the real number M·2^(-150).
  This representation is order-isomorphic to the IEEE comparison order on
  non-NaN floats and makes every comparison of the Python code exact.
* Python's two-argument `min`/`max` keep the first argument unless the
  second compares strictly smaller/greater (`pymin`/`pymax` below); with a
  NaN second argument the comparison is false and the accumulator is kept.
* Failure of `struct.unpack` (the only failure point past opening the
  file) is `Option.none`; the script has no handler, so `none` is the
  aborted run with no output.
-/

/-- Exact value of one binary32 scalar: NaN, an infinity, or a finite value
`fin M` denoting M·2^(-150). -/
inductive FVal where
  | nan : FVal
  | negInf : FVal
  | fin : Int → FVal
  | posInf : FVal
deriving DecidableEq

/-- Python `a < b` on floats (every comparison with NaN is false). -/
def flt : FVal → FVal → Bool
  | .nan, _ => false
  | _, .nan => false
  | .negInf, .negInf => false
  | .negInf, _ => true
  | _, .negInf => false
  | _, .posInf => true
  | .posInf, _ => false
  | .fin a, .fin b => decide (a < b)

/-- Python `a <= b` on floats (every comparison with NaN is false). -/
def fle : FVal → FVal → Bool
  | .nan, _ => false
  | _, .nan => false
  | .negInf, _ => true
  | _, .negInf => false
  | _, .posInf => true
  | .posInf, _ => false
  | .fin a, .fin b => decide (a ≤ b)

/-- Python `min(a, b)`: keeps `a` unless `b < a`. -/
def pymin (a b : FVal) : FVal := if flt b a then b else a

/-- Python `max(a, b)`: keeps `a` unless `b > a`. -/
def pymax (a b : FVal) : FVal := if flt a b then b else a

/-- Python float subtraction `a - b`, exact on the scaled-integer values
(the repository only subtracts to report per-axis sizes). -/
def fsub : FVal → FVal → FVal
  | .nan, _ => .nan
  | _, .nan => .nan
  | .posInf, .posInf => .nan
  | .posInf, _ => .posInf
  | .negInf, .negInf => .nan
  | .negInf, _ => .negInf
  | _, .posInf => .negInf
  | _, .negInf => .posInf
  | .fin a, .fin b => .fin (a - b)

/-- Little-endian interpretation of a byte list, as used by all `<` format
strings of `struct.unpack` in the scripts. -/
def leWord : List Nat → Nat
  | [] => 0
  | b :: bs => b + 256 * leWord bs

/-- Exact decoding of one binary32 float from its 32-bit pattern `w`
(sign, 8-bit exponent, 23-bit fraction; `e = 255` gives an infinity or
NaN, `e = 0` is subnormal). -/
def decodeF32w (w : Nat) : FVal :=
  let s := w / 2 ^ 31 % 2
  let e := w / 2 ^ 23 % 256
  let m := w % 2 ^ 23
  if e = 255 then
    if m = 0 then (if s = 0 then .posInf else .negInf) else .nan
  else
    let mag : Nat := if e = 0 then 2 * m else (2 ^ 23 + m) * 2 ^ e
    .fin (if s = 0 then (mag : Int) else -(mag : Int))

/-- Decode the binary32 float stored in a 4-byte little-endian slice. -/
def decodeF32 (bs : List Nat) : FVal := decodeF32w (leWord bs)

/-- `struct.unpack('<I', bs)`: succeeds exactly on a 4-byte buffer. -/
def unpackU32 (bs : List Nat) : Option Nat :=
  if bs.length = 4 then some (leWord bs) else none

/-- One vertex: the triple `(x, y, z)` of decoded floats. -/
structure Vertex where
  x : FVal
  y : FVal
  z : FVal
deriving DecidableEq

/-- The three floats packed into a 12-byte vertex slice. -/
def decV (bs : List Nat) : Vertex :=
  ⟨decodeF32 (bs.take 4), decodeF32 ((bs.drop 4).take 4),
   decodeF32 ((bs.drop 8).take 4)⟩

/-- `struct.unpack('<3f', bs)` (alias `'<fff'`): succeeds exactly on a
12-byte buffer. -/
def unpackVertex (bs : List Nat) : Option Vertex :=
  if bs.length = 12 then some (decV bs) else none

/-- The six running extrema `mins[0..2]` / `maxs[0..2]`
(`min_x … max_z` in `analyze_stl.py`). -/
structure Box where
  min_x : FVal
  min_y : FVal
  min_z : FVal
  max_x : FVal
  max_y : FVal
  max_z : FVal
deriving DecidableEq

/-- Initial extrema: `[float('inf')] * 3` and `[float('-inf')] * 3`. -/
def initBox : Box := ⟨.posInf, .posInf, .posInf, .negInf, .negInf, .negInf⟩

/-- One vertex step of the accumulation:
`mins[i] = min(mins[i], v[i]); maxs[i] = max(maxs[i], v[i])`. -/
def updVertex (b : Box) (v : Vertex) : Box :=
  ⟨pymin b.min_x v.x, pymin b.min_y v.y, pymin b.min_z v.z,
   pymax b.max_x v.x, pymax b.max_y v.y, pymax b.max_z v.z⟩

/-- `v = struct.unpack('<3f', f.read(12))` followed by the min/max updates:
takes 12 bytes off the stream, fails if fewer are available. -/
def readVertex (s : List Nat) (b : Box) : Option (Box × List Nat) :=
  match unpackVertex (s.take 12) with
  | none => none
  | some v => some (updVertex b v, s.drop 12)

/-- The `for _ in range(n)` triangle loop: per record skip 12 normal bytes
(`f.read(12)`, never length-checked), unpack three 12-byte vertices, skip
2 attribute bytes (`f.read(2)`, never length-checked).  Returns the final
extrema and the unread rest of the stream. -/
def triLoop : Nat → List Nat → Box → Option (Box × List Nat)
  | 0, s, b => some (b, s)
  | n + 1, s, b =>
    match readVertex (s.drop 12) b with
    | none => none
    | some (b1, s1) =>
      match readVertex s1 b1 with
      | none => none
      | some (b2, s2) =>
        match readVertex s2 b2 with
        | none => none
        | some (b3, s3) => triLoop n (s3.drop 2) b3

/-- `f.read(80)` then `struct.unpack('<I', f.read(4))[0]`: the triangle
count, read from bytes 80–83; fails when fewer than 84 bytes exist. -/
def parseCount (file : List Nat) : Option Nat :=
  unpackU32 ((file.drop 80).take 4)

/-- What a successful run of `get_info` has computed before printing. -/
structure Result where
  n : Nat
  box : Box
deriving DecidableEq

/-- The whole body of `get_info` (and of `analyze_stl.py`'s main block):
header skip, count, triangle loop.  Also exposes the unread rest of the
stream, i.e. the final file position. -/
def get_info_run (file : List Nat) : Option (Result × List Nat) :=
  match parseCount file with
  | none => none
  | some n =>
    match triLoop n ((file.drop 80).drop 4) initBox with
    | none => none
    | some (b, rest) => some (⟨n, b⟩, rest)

/-- `get_info`: the observable result of one extractor invocation
(`none` is the uncaught `struct.error` aborting the script). -/
def get_info (file : List Nat) : Option Result :=
  (get_info_run file).map Prod.fst

/-- The text printed on success: the triangle count, the extrema, and the
per-axis sizes `dx, dy, dz = maxs[i] - mins[i]`
(`max_x-min_x` … in `analyze_stl.py`). -/
structure Report where
  triangles : Nat
  box : Box
  size_x : FVal
  size_y : FVal
  size_z : FVal
deriving DecidableEq

/-- Assemble the printed report from a run's result. -/
def mkReport (r : Result) : Report :=
  ⟨r.n, r.box, fsub r.box.max_x r.box.min_x, fsub r.box.max_y r.box.min_y,
   fsub r.box.max_z r.box.min_z⟩

/-- The full pipeline of one invocation: run, then print. -/
def runReport (file : List Nat) : Option Report :=
  (get_info file).map mkReport

/-- One synthesized 50-byte triangle record, kept as raw byte slices:
12 normal bytes, three 12-byte vertices, 2 attribute bytes. -/
structure TriRec where
  normal : List Nat
  v1 : List Nat
  v2 : List Nat
  v3 : List Nat
  attr : List Nat
deriving DecidableEq

/-- Field lengths of a well-formed record. -/
def TriRec.wellFormed (t : TriRec) : Prop :=
  t.normal.length = 12 ∧ t.v1.length = 12 ∧ t.v2.length = 12 ∧
    t.v3.length = 12 ∧ t.attr.length = 2

instance (t : TriRec) : Decidable t.wellFormed := by
  unfold TriRec.wellFormed
  infer_instance

/-- Serialized bytes of one record, in STL order. -/
def TriRec.bytes (t : TriRec) : List Nat :=
  t.normal ++ t.v1 ++ t.v2 ++ t.v3 ++ t.attr

/-- The three decoded vertices of one record. -/
def TriRec.verts (t : TriRec) : List Vertex :=
  [decV t.v1, decV t.v2, decV t.v3]

/-- Serialized bytes of a record list. -/
def recBytes (recs : List TriRec) : List Nat :=
  (recs.map TriRec.bytes).flatten

/-- The vertex stream of a record list, in consumption order. -/
def allVerts (recs : List TriRec) : List Vertex :=
  (recs.map TriRec.verts).flatten

/-- Little-endian encoding of a 32-bit count. -/
def encodeU32 (n : Nat) : List Nat :=
  [n % 256, n / 256 % 256, n / 2 ^ 16 % 256, n / 2 ^ 24 % 256]

/-- A synthesized binary STL byte string: an arbitrary 80-byte header, the
little-endian record count, then the 50-byte records. -/
def stlFile (header : List Nat) (recs : List TriRec) : List Nat :=
  header ++ encodeU32 recs.length ++ recBytes recs

/-- The per-axis coordinate streams of a synthesized record list. -/
def xsOf (recs : List TriRec) : List FVal := (allVerts recs).map Vertex.x

def ysOf (recs : List TriRec) : List FVal := (allVerts recs).map Vertex.y

def zsOf (recs : List TriRec) : List FVal := (allVerts recs).map Vertex.z

/-- The extrema the extractor computes on the vertex stream of `recs`. -/
def extractedBox (recs : List TriRec) : Box :=
  List.foldl updVertex initBox (allVerts recs)

/-- Python string comparison `a <= b`, lexicographic by code point, as used
by `sorted` on the directory listing. -/
def charListLe : List Char → List Char → Bool
  | [], _ => true
  | _ :: _, [] => false
  | a :: as, b :: bs =>
    if a.toNat < b.toNat then true
    else if b.toNat < a.toNat then false
    else charListLe as bs

/-- `f.endswith('.stl')`. -/
def endsWithStl (name : List Char) : Bool :=
  List.isSuffixOf ['.', 's', 't', 'l'] name

/-- `sorted(...)` on the directory listing: the unique output that is a
sorted permutation of the input (any correct sort; the relation is a total
order on strings, so the result does not depend on the algorithm). -/
def pySorted (l : List (List Char)) : List (List Char) :=
  List.insertionSort (fun a b => charListLe a b = true) l

/-- The directory-scan driver
`for f in sorted(os.listdir(output_dir)): if f.endswith('.stl'): get_info(...)`:
the sequence of file names processed, in processing order. -/
def scanDir (listing : List (List Char)) : List (List Char) :=
  (pySorted listing).filter endsWithStl

/-- Events of the file-handle lifecycle of one invocation. -/
inductive FileEv where
  | opened : FileEv
  | closed : FileEv
deriving DecidableEq

/-- Python's `with open(fname, 'rb') as f:` around a body: the handle is
acquired, the body runs (returning `some` on success or `none` for an
uncaught exception propagating out), and `__exit__` closes the handle on
both paths before the outcome escapes the block. -/
def withOpen {α : Type} (body : List Nat → Option α) (file : List Nat) :
    List FileEv × Option α :=
  (FileEv.opened :: [FileEv.closed], body file)

/-- One full `get_info` invocation with its handle events. -/
def get_info_traced (file : List Nat) : List FileEv × Option Result :=
  withOpen get_info file

/-- The extrema accumulated over a plain vertex stream, starting from the
initial infinities. -/
def foldVerts (vs : List Vertex) : Box := List.foldl updVertex initBox vs

/-- The box of a degenerate all-zero triangle, used in concrete checks. -/
def zeroBox : Box :=
  ⟨.fin 0, .fin 0, .fin 0, .fin 0, .fin 0, .fin 0⟩

/-- An 84-byte file: empty header, count 0, no records. -/
def emptyStl : List Nat := List.replicate 80 0 ++ [0, 0, 0, 0]

/-- A complete one-triangle file whose twelve coordinate bytes are zero. -/
def oneTriFile : List Nat :=
  List.replicate 80 0 ++ [1, 0, 0, 0] ++ List.replicate 50 0

/-- One triangle with vertices (0,0,0), (1,1,1), (0,1,0); the coordinate
1.0 is the byte pattern `3F800000`, i.e. the scaled integer 2^150. -/
def c1recs : List TriRec :=
  [⟨List.replicate 12 0, List.replicate 12 0,
    [0, 0, 128, 63, 0, 0, 128, 63, 0, 0, 128, 63],
    [0, 0, 0, 0, 0, 0, 128, 63, 0, 0, 0, 0], [0, 0]⟩]

/-- The little-endian bytes of the quiet-NaN pattern `7FC00000`. -/
def nanBytes : List Nat := [0, 0, 192, 127]

/-- A structurally complete 134-byte one-triangle STL file whose nine
vertex coordinates are all NaN. -/
def nanFile : List Nat :=
  List.replicate 80 0 ++ [1, 0, 0, 0] ++ List.replicate 12 0 ++
    nanBytes ++ nanBytes ++ nanBytes ++ nanBytes ++ nanBytes ++ nanBytes ++
    nanBytes ++ nanBytes ++ nanBytes ++ [0, 0]

/-- A file of 132 bytes: preamble, count 1, normal and all three vertices
present, but the 2 attribute bytes missing. -/
def attrTruncFile : List Nat :=
  List.replicate 80 0 ++ [1, 0, 0, 0] ++ List.replicate 48 0

/-- A directory listing in which raw order is "b.stl" before "a.stl". -/
def demoListing : List (List Char) :=
  [['b', '.', 's', 't', 'l'], ['a', '.', 's', 't', 'l']]

/-- One all-zero record: zero normal, zero vertices, zero attribute. -/
def c7recsA : List TriRec :=
  [⟨List.replicate 12 0, List.replicate 12 0, List.replicate 12 0,
    List.replicate 12 0, [0, 0]⟩]

/-- The same vertex bytes under a different normal and attribute field. -/
def c7recsB : List TriRec :=
  [⟨List.replicate 12 255, List.replicate 12 0, List.replicate 12 0,
    List.replicate 12 0, [7, 9]⟩]

/-- A single all-zero record used in the truncation witness. -/
def c10rec : TriRec :=
  ⟨List.replicate 12 0, List.replicate 12 0, List.replicate 12 0,
   List.replicate 12 0, [0, 0]⟩

lemma fle_refl_of_ne_nan {a : FVal} (h : a ≠ .nan) : fle a a = true := by
  cases a <;> simp_all [fle]

lemma ne_nan_of_fle {a b : FVal} (h : fle a b = true) : a ≠ .nan ∧ b ≠ .nan := by
  cases a <;> cases b <;> simp_all [fle]

lemma ne_nan_of_flt {a b : FVal} (h : flt a b = true) : a ≠ .nan ∧ b ≠ .nan := by
  cases a <;> cases b <;> simp_all [flt]

lemma fle_of_flt {a b : FVal} (h : flt a b = true) : fle a b = true := by
  cases a <;> cases b <;> simp_all [flt, fle] <;> omega

lemma fle_of_not_flt {a b : FVal} (ha : a ≠ .nan) (hb : b ≠ .nan)
    (h : flt b a = false) : fle a b = true := by
  cases a <;> cases b <;> simp_all [flt, fle] <;> omega

lemma fle_trans {a b c : FVal} (h1 : fle a b = true) (h2 : fle b c = true) :
    fle a c = true := by
  cases a <;> cases b <;> cases c <;> simp_all [fle] <;> omega

lemma fle_antisymm {a b : FVal} (h1 : fle a b = true) (h2 : fle b a = true) :
    a = b := by
  cases a <;> cases b <;> simp_all [fle] <;> omega

lemma fle_posInf {a : FVal} (h : a ≠ .nan) : fle a .posInf = true := by
  cases a <;> simp_all [fle]

lemma negInf_fle {a : FVal} (h : a ≠ .nan) : fle .negInf a = true := by
  cases a <;> simp_all [fle]

lemma pymin_ne_nan {a v : FVal} (h : a ≠ .nan) : pymin a v ≠ .nan := by
  unfold pymin
  split
  case isTrue hlt => exact (ne_nan_of_flt hlt).1
  case isFalse _ => exact h

lemma pymax_ne_nan {a v : FVal} (h : a ≠ .nan) : pymax a v ≠ .nan := by
  unfold pymax
  split
  case isTrue hlt => exact (ne_nan_of_flt hlt).2
  case isFalse _ => exact h

lemma fle_pymin_left {a v : FVal} (h : a ≠ .nan) : fle (pymin a v) a = true := by
  unfold pymin
  split
  case isTrue hlt => exact fle_of_flt hlt
  case isFalse _ => exact fle_refl_of_ne_nan h

lemma pymax_fle_left {a v : FVal} (h : a ≠ .nan) : fle a (pymax a v) = true := by
  unfold pymax
  split
  case isTrue hlt => exact fle_of_flt hlt
  case isFalse _ => exact fle_refl_of_ne_nan h

lemma pymin_fle_right {a v : FVal} (ha : a ≠ .nan) (hv : v ≠ .nan) :
    fle (pymin a v) v = true := by
  unfold pymin
  split
  case isTrue _ => exact fle_refl_of_ne_nan hv
  case isFalse hlt => exact fle_of_not_flt ha hv (by simpa using hlt)

lemma pymax_fle_right {a v : FVal} (ha : a ≠ .nan) (hv : v ≠ .nan) :
    fle v (pymax a v) = true := by
  unfold pymax
  split
  case isTrue _ => exact fle_refl_of_ne_nan hv
  case isFalse hlt => exact fle_of_not_flt hv ha (by simpa using hlt)

lemma fle_pymin {q a v : FVal} (hqa : fle q a = true)
    (hqv : v ≠ .nan → fle q v = true) : fle q (pymin a v) = true := by
  unfold pymin
  split
  case isTrue hlt => exact hqv (ne_nan_of_flt hlt).1
  case isFalse _ => exact hqa

lemma pymax_fle {q a v : FVal} (hqa : fle a q = true)
    (hqv : v ≠ .nan → fle v q = true) : fle (pymax a v) q = true := by
  unfold pymax
  split
  case isTrue hlt => exact hqv (ne_nan_of_flt hlt).2
  case isFalse _ => exact hqa

lemma foldl_pymin_ne_nan {a : FVal} (l : List FVal) (h : a ≠ .nan) :
    List.foldl pymin a l ≠ .nan := by
  induction l generalizing a with
  | nil => exact h
  | cons v l ih => exact ih (pymin_ne_nan h)

lemma foldl_pymax_ne_nan {a : FVal} (l : List FVal) (h : a ≠ .nan) :
    List.foldl pymax a l ≠ .nan := by
  induction l generalizing a with
  | nil => exact h
  | cons v l ih => exact ih (pymax_ne_nan h)

lemma foldl_pymin_fle_start {a : FVal} (l : List FVal) (h : a ≠ .nan) :
    fle (List.foldl pymin a l) a = true := by
  induction l generalizing a with
  | nil => exact fle_refl_of_ne_nan h
  | cons v l ih =>
    exact fle_trans (ih (pymin_ne_nan h)) (fle_pymin_left h)

lemma foldl_pymax_fle_start {a : FVal} (l : List FVal) (h : a ≠ .nan) :
    fle a (List.foldl pymax a l) = true := by
  induction l generalizing a with
  | nil => exact fle_refl_of_ne_nan h
  | cons v l ih =>
    exact fle_trans (pymax_fle_left h) (ih (pymax_ne_nan h))

lemma foldl_pymin_fle_mem {a c : FVal} {l : List FVal} (ha : a ≠ .nan)
    (hc : c ∈ l) (hcn : c ≠ .nan) : fle (List.foldl pymin a l) c = true := by
  induction l generalizing a with
  | nil => cases hc
  | cons v l ih =>
    rcases List.mem_cons.mp hc with rfl | hm
    · exact fle_trans (foldl_pymin_fle_start l (pymin_ne_nan ha))
        (pymin_fle_right ha hcn)
    · exact ih (pymin_ne_nan ha) hm

lemma foldl_pymax_fle_mem {a c : FVal} {l : List FVal} (ha : a ≠ .nan)
    (hc : c ∈ l) (hcn : c ≠ .nan) : fle c (List.foldl pymax a l) = true := by
  induction l generalizing a with
  | nil => cases hc
  | cons v l ih =>
    rcases List.mem_cons.mp hc with rfl | hm
    · exact fle_trans (pymax_fle_right ha hcn)
        (foldl_pymax_fle_start l (pymax_ne_nan ha))
    · exact ih (pymax_ne_nan ha) hm

lemma fle_foldl_pymin {q a : FVal} {l : List FVal} (hqa : fle q a = true)
    (hl : ∀ c ∈ l, c ≠ .nan → fle q c = true) :
    fle q (List.foldl pymin a l) = true := by
  induction l generalizing a with
  | nil => exact hqa
  | cons v l ih =>
    exact ih (fle_pymin hqa (hl v (List.mem_cons_self v l)))
      (fun c hc => hl c (List.mem_cons_of_mem v hc))

lemma foldl_pymax_fle {q a : FVal} {l : List FVal} (hqa : fle a q = true)
    (hl : ∀ c ∈ l, c ≠ .nan → fle c q = true) :
    fle (List.foldl pymax a l) q = true := by
  induction l generalizing a with
  | nil => exact hqa
  | cons v l ih =>
    exact ih (pymax_fle hqa (hl v (List.mem_cons_self v l)))
      (fun c hc => hl c (List.mem_cons_of_mem v hc))

lemma leWord_encodeU32 {n : Nat} (h : n < 2 ^ 32) :
    leWord (encodeU32 n) = n := by
  simp only [encodeU32, leWord]
  omega

lemma readVertex_append {bs rest : List Nat} {b : Box} (h : bs.length = 12) :
    readVertex (bs ++ rest) b = some (updVertex b (decV bs), rest) := by
  rw [readVertex, List.take_left' h, unpackVertex, if_pos h,
    List.drop_left' h]

lemma triLoop_recBytes (recs : List TriRec) (rest : List Nat) (b : Box)
    (h : ∀ t ∈ recs, t.wellFormed) :
    triLoop recs.length (recBytes recs ++ rest) b =
      some (List.foldl updVertex b (allVerts recs), rest) := by
  induction recs generalizing b rest with
  | nil => simp [recBytes, allVerts, triLoop]
  | cons t recs ih =>
    obtain ⟨hn, h1, h2, h3, ha⟩ := h t (List.mem_cons_self t recs)
    have hrest := fun u hu => h u (List.mem_cons_of_mem t hu)
    have hbytes : recBytes (t :: recs) ++ rest =
        t.normal ++ (t.v1 ++ (t.v2 ++ (t.v3 ++ (t.attr ++
          (recBytes recs ++ rest))))) := by
      simp [recBytes, TriRec.bytes]
    rw [List.length_cons, hbytes, triLoop, List.drop_left' hn]
    simp only [readVertex_append h1, readVertex_append h2,
      readVertex_append h3]
    rw [List.drop_left' ha, ih rest _ hrest]
    simp [allVerts, TriRec.verts]

lemma get_info_run_stlFile {header : List Nat} {recs : List TriRec}
    (extra : List Nat) (hh : header.length = 80) (hn : recs.length < 2 ^ 32)
    (hw : ∀ t ∈ recs, t.wellFormed) :
    get_info_run (stlFile header recs ++ extra) =
      some (⟨recs.length, List.foldl updVertex initBox (allVerts recs)⟩,
        extra) := by
  have hfile : stlFile header recs ++ extra =
      header ++ (encodeU32 recs.length ++ (recBytes recs ++ extra)) := by
    simp [stlFile]
  have henc : (encodeU32 recs.length).length = 4 := rfl
  have hcount : unpackU32 (encodeU32 recs.length) = some recs.length := by
    rw [unpackU32, if_pos henc, leWord_encodeU32 hn]
  have hd80 : (stlFile header recs ++ extra).drop 80 =
      encodeU32 recs.length ++ (recBytes recs ++ extra) := by
    rw [hfile]
    exact List.drop_left' hh
  have ht4 : ((stlFile header recs ++ extra).drop 80).take 4 =
      encodeU32 recs.length := by
    rw [hd80]
    exact List.take_left' henc
  have hd4 : ((stlFile header recs ++ extra).drop 80).drop 4 =
      recBytes recs ++ extra := by
    rw [hd80]
    exact List.drop_left' henc
  simp only [get_info_run, parseCount, ht4, hcount, hd4,
    triLoop_recBytes recs extra initBox hw]

lemma get_info_stlFile {header : List Nat} {recs : List TriRec}
    (extra : List Nat) (hh : header.length = 80) (hn : recs.length < 2 ^ 32)
    (hw : ∀ t ∈ recs, t.wellFormed) :
    get_info (stlFile header recs ++ extra) =
      some ⟨recs.length, List.foldl updVertex initBox (allVerts recs)⟩ := by
  rw [get_info, get_info_run_stlFile extra hh hn hw]
  rfl

lemma foldl_updVertex_min_x (vs : List Vertex) (b : Box) :
    (List.foldl updVertex b vs).min_x =
      List.foldl pymin b.min_x (vs.map Vertex.x) := by
  induction vs generalizing b with
  | nil => rfl
  | cons v vs ih => simpa [updVertex] using ih (updVertex b v)

lemma foldl_updVertex_min_y (vs : List Vertex) (b : Box) :
    (List.foldl updVertex b vs).min_y =
      List.foldl pymin b.min_y (vs.map Vertex.y) := by
  induction vs generalizing b with
  | nil => rfl
  | cons v vs ih => simpa [updVertex] using ih (updVertex b v)

lemma foldl_updVertex_min_z (vs : List Vertex) (b : Box) :
    (List.foldl updVertex b vs).min_z =
      List.foldl pymin b.min_z (vs.map Vertex.z) := by
  induction vs generalizing b with
  | nil => rfl
  | cons v vs ih => simpa [updVertex] using ih (updVertex b v)

lemma foldl_updVertex_max_x (vs : List Vertex) (b : Box) :
    (List.foldl updVertex b vs).max_x =
      List.foldl pymax b.max_x (vs.map Vertex.x) := by
  induction vs generalizing b with
  | nil => rfl
  | cons v vs ih => simpa [updVertex] using ih (updVertex b v)

lemma foldl_updVertex_max_y (vs : List Vertex) (b : Box) :
    (List.foldl updVertex b vs).max_y =
      List.foldl pymax b.max_y (vs.map Vertex.y) := by
  induction vs generalizing b with
  | nil => rfl
  | cons v vs ih => simpa [updVertex] using ih (updVertex b v)

lemma foldl_updVertex_max_z (vs : List Vertex) (b : Box) :
    (List.foldl updVertex b vs).max_z =
      List.foldl pymax b.max_z (vs.map Vertex.z) := by
  induction vs generalizing b with
  | nil => rfl
  | cons v vs ih => simpa [updVertex] using ih (updVertex b v)

lemma readVertex_long {s : List Nat} (b : Box) (h : 12 ≤ s.length) :
    readVertex s b = some (updVertex b (decV (s.take 12)), s.drop 12) := by
  have ht : (s.take 12).length = 12 := by
    rw [List.length_take]
    omega
  rw [readVertex, unpackVertex, if_pos ht]

lemma readVertex_short {s : List Nat} (b : Box) (h : s.length < 12) :
    readVertex s b = none := by
  have ht : ¬(s.take 12).length = 12 := by
    rw [List.length_take]
    omega
  rw [readVertex, unpackVertex, if_neg ht]

lemma triLoop_step {s : List Nat} (n : Nat) (b : Box) (h : 48 ≤ s.length) :
    triLoop (n + 1) s b =
      triLoop n (((((s.drop 12).drop 12).drop 12).drop 12).drop 2)
        (updVertex (updVertex (updVertex b (decV ((s.drop 12).take 12)))
          (decV (((s.drop 12).drop 12).take 12)))
          (decV ((((s.drop 12).drop 12).drop 12).take 12))) := by
  have h1 : 12 ≤ (s.drop 12).length := by
    simp only [List.length_drop]
    omega
  have h2 : 12 ≤ ((s.drop 12).drop 12).length := by
    simp only [List.length_drop]
    omega
  have h3 : 12 ≤ (((s.drop 12).drop 12).drop 12).length := by
    simp only [List.length_drop]
    omega
  rw [triLoop]
  simp only [readVertex_long b h1, readVertex_long _ h2,
    readVertex_long _ h3]

lemma triLoop_fail48 (n : Nat) (s : List Nat) (b : Box)
    (h : s.length < 48) : triLoop (n + 1) s b = none := by
  rw [triLoop]
  by_cases h1 : 12 ≤ (s.drop 12).length
  · simp only [readVertex_long b h1]
    by_cases h2 : 12 ≤ ((s.drop 12).drop 12).length
    · simp only [readVertex_long _ h2]
      have h3 : (((s.drop 12).drop 12).drop 12).length < 12 := by
        simp only [List.length_drop]
        omega
      simp only [readVertex_short _ h3]
    · have h2' : ((s.drop 12).drop 12).length < 12 := by omega
      simp only [readVertex_short _ h2']
  · have h1' : (s.drop 12).length < 12 := by omega
    simp only [readVertex_short b h1']

lemma triLoop_rest {n : Nat} {s : List Nat} {b b' : Box} {rest : List Nat}
    (h : triLoop n s b = some (b', rest)) : rest = s.drop (50 * n) := by
  induction n generalizing s b with
  | zero =>
    rw [triLoop] at h
    injection h with h
    rw [Nat.mul_zero, List.drop_zero]
    exact (congrArg Prod.snd h).symm
  | succ n ih =>
    by_cases h48 : 48 ≤ s.length
    · rw [triLoop_step n b h48] at h
      have hr := ih h
      rw [hr]
      simp only [List.drop_drop]
      congr 1
      omega
    · rw [triLoop_fail48 n s b (by omega)] at h
      cases h

lemma triLoop_none_of_short (n : Nat) (s : List Nat) (b : Box)
    (h : s.length + 2 < 50 * n) : triLoop n s b = none := by
  induction n generalizing s b with
  | zero => omega
  | succ n ih =>
    by_cases h48 : 48 ≤ s.length
    · rw [triLoop_step n b h48]
      apply ih
      simp only [List.length_drop]
      omega
    · exact triLoop_fail48 n s b (by omega)

lemma triLoop_recBytes_add (recs : List TriRec) (n : Nat) (rest : List Nat)
    (b : Box) (h : ∀ t ∈ recs, t.wellFormed) :
    triLoop (recs.length + n) (recBytes recs ++ rest) b =
      triLoop n rest (List.foldl updVertex b (allVerts recs)) := by
  induction recs generalizing b rest with
  | nil => simp [recBytes, allVerts]
  | cons t recs ih =>
    obtain ⟨hn, h1, h2, h3, ha⟩ := h t (List.mem_cons_self t recs)
    have hrest := fun u hu => h u (List.mem_cons_of_mem t hu)
    have hbytes : recBytes (t :: recs) ++ rest =
        t.normal ++ (t.v1 ++ (t.v2 ++ (t.v3 ++ (t.attr ++
          (recBytes recs ++ rest))))) := by
      simp [recBytes, TriRec.bytes]
    have hlen : (t :: recs).length + n = (recs.length + n) + 1 := by
      simp only [List.length_cons]
      omega
    rw [hlen, hbytes, triLoop, List.drop_left' hn]
    simp only [readVertex_append h1, readVertex_append h2,
      readVertex_append h3]
    rw [List.drop_left' ha, ih rest _ hrest]
    simp [allVerts, TriRec.verts]

lemma charListLe_total (a b : List Char) :
    charListLe a b = true ∨ charListLe b a = true := by
  induction a generalizing b with
  | nil => left; rfl
  | cons x xs ih =>
    cases b with
    | nil => right; rfl
    | cons y ys =>
      by_cases h1 : x.toNat < y.toNat
      · left; simp [charListLe, h1]
      · by_cases h2 : y.toNat < x.toNat
        · right; simp [charListLe, h2]
        · rcases ih ys with h | h
          · left; simp [charListLe, h1, h2, h]
          · right; simp [charListLe, h1, h2, h]

lemma charListLe_trans {a b c : List Char} (h1 : charListLe a b = true)
    (h2 : charListLe b c = true) : charListLe a c = true := by
  induction a generalizing b c with
  | nil => rfl
  | cons x xs ih =>
    cases b with
    | nil => simp [charListLe] at h1
    | cons y ys =>
      cases c with
      | nil => simp [charListLe] at h2
      | cons z zs =>
        simp only [charListLe] at h1 h2 ⊢
        by_cases hxy : x.toNat < y.toNat
        · by_cases hyz : y.toNat < z.toNat
          · rw [if_pos (show x.toNat < z.toNat by omega)]
          · by_cases hzy : z.toNat < y.toNat
            · rw [if_neg hyz, if_pos hzy] at h2
              exact absurd h2 (by simp)
            · rw [if_pos (show x.toNat < z.toNat by omega)]
        · by_cases hyx : y.toNat < x.toNat
          · rw [if_neg hxy, if_pos hyx] at h1
            exact absurd h1 (by simp)
          · rw [if_neg hxy, if_neg hyx] at h1
            by_cases hyz : y.toNat < z.toNat
            · rw [if_pos (show x.toNat < z.toNat by omega)]
            · by_cases hzy : z.toNat < y.toNat
              · rw [if_neg hyz, if_pos hzy] at h2
                exact absurd h2 (by simp)
              · rw [if_neg hyz, if_neg hzy] at h2
                rw [if_neg (show ¬x.toNat < z.toNat by omega),
                  if_neg (show ¬z.toNat < x.toNat by omega)]
                exact ih h1 h2

lemma get_info_stlFile_nil {header : List Nat} {recs : List TriRec}
    (hh : header.length = 80) (hn : recs.length < 2 ^ 32)
    (hw : ∀ t ∈ recs, t.wellFormed) :
    get_info (stlFile header recs) =
      some ⟨recs.length, extractedBox recs⟩ := by
  have h := get_info_stlFile [] hh hn hw
  rw [List.append_nil] at h
  exact h

lemma foldl_pymin_eq_of_span {lo : FVal} {l : List FVal}
    (hlo : ∀ c ∈ l, fle lo c = true) (hmem : lo ∈ l) :
    List.foldl pymin FVal.posInf l = lo := by
  have hlon : lo ≠ FVal.nan := (ne_nan_of_fle (hlo lo hmem)).1
  apply fle_antisymm
  · exact foldl_pymin_fle_mem (by decide) hmem hlon
  · exact fle_foldl_pymin (fle_posInf hlon) (fun c hc _ => hlo c hc)

lemma foldl_pymax_eq_of_span {hi : FVal} {l : List FVal}
    (hhi : ∀ c ∈ l, fle c hi = true) (hmem : hi ∈ l) :
    List.foldl pymax FVal.negInf l = hi := by
  have hhin : hi ≠ FVal.nan := (ne_nan_of_fle (hhi hi hmem)).2
  apply fle_antisymm
  · exact foldl_pymax_fle (negInf_fle hhin) (fun c hc _ => hhi c hc)
  · exact foldl_pymax_fle_mem (by decide) hmem hhin

lemma fle_fold_min_max {l : List FVal} (h : ∃ c ∈ l, c ≠ FVal.nan) :
    fle (List.foldl pymin FVal.posInf l)
      (List.foldl pymax FVal.negInf l) = true := by
  obtain ⟨c, hc, hcn⟩ := h
  exact fle_trans (foldl_pymin_fle_mem (by decide) hc hcn)
    (foldl_pymax_fle_mem (by decide) hc hcn)

lemma triLoop_lastRec {nor v1 v2 v3 rest : List Nat} (b : Box)
    (hn : nor.length = 12) (h1 : v1.length = 12) (h2 : v2.length = 12)
    (h3 : v3.length = 12) (hr : rest.length ≤ 2) :
    triLoop 1 (nor ++ (v1 ++ (v2 ++ (v3 ++ rest)))) b =
      some (updVertex (updVertex (updVertex b (decV v1)) (decV v2))
        (decV v3), []) := by
  have hone : (1 : Nat) = 0 + 1 := rfl
  rw [hone, triLoop, List.drop_left' hn]
  simp only [readVertex_append h1, readVertex_append h2, readVertex_append h3]
  rw [triLoop, List.drop_eq_nil_of_le hr]

/-- Claim C1: for every STL byte string synthesized with K triangle records
whose nine vertex coordinates per triangle span a known axis-aligned box,
extraction reports triangle count exactly K and a bounding box exactly
equal to that box, with exact equality of each per-axis min and max. -/
theorem c1_roundtrip (header : List Nat) (recs : List TriRec)
    (lx hx ly hy lz hz : FVal) (hh : header.length = 80)
    (hn : recs.length < 2 ^ 32) (hw : ∀ t ∈ recs, t.wellFormed)
    (hxlo : ∀ c ∈ xsOf recs, fle lx c = true)
    (hxhi : ∀ c ∈ xsOf recs, fle c hx = true)
    (hxl : lx ∈ xsOf recs) (hxh : hx ∈ xsOf recs)
    (hylo : ∀ c ∈ ysOf recs, fle ly c = true)
    (hyhi : ∀ c ∈ ysOf recs, fle c hy = true)
    (hyl : ly ∈ ysOf recs) (hyh : hy ∈ ysOf recs)
    (hzlo : ∀ c ∈ zsOf recs, fle lz c = true)
    (hzhi : ∀ c ∈ zsOf recs, fle c hz = true)
    (hzl : lz ∈ zsOf recs) (hzh : hz ∈ zsOf recs) :
    get_info (stlFile header recs) =
      some ⟨recs.length, ⟨lx, ly, lz, hx, hy, hz⟩⟩ := by
  have e1 : (extractedBox recs).min_x = lx := by
    rw [extractedBox, foldl_updVertex_min_x]
    exact foldl_pymin_eq_of_span hxlo hxl
  have e2 : (extractedBox recs).min_y = ly := by
    rw [extractedBox, foldl_updVertex_min_y]
    exact foldl_pymin_eq_of_span hylo hyl
  have e3 : (extractedBox recs).min_z = lz := by
    rw [extractedBox, foldl_updVertex_min_z]
    exact foldl_pymin_eq_of_span hzlo hzl
  have e4 : (extractedBox recs).max_x = hx := by
    rw [extractedBox, foldl_updVertex_max_x]
    exact foldl_pymax_eq_of_span hxhi hxh
  have e5 : (extractedBox recs).max_y = hy := by
    rw [extractedBox, foldl_updVertex_max_y]
    exact foldl_pymax_eq_of_span hyhi hyh
  have e6 : (extractedBox recs).max_z = hz := by
    rw [extractedBox, foldl_updVertex_max_z]
    exact foldl_pymax_eq_of_span hzhi hzh
  have hbox : extractedBox recs = ⟨lx, ly, lz, hx, hy, hz⟩ := by
    calc extractedBox recs
        = ⟨(extractedBox recs).min_x, (extractedBox recs).min_y,
           (extractedBox recs).min_z, (extractedBox recs).max_x,
           (extractedBox recs).max_y, (extractedBox recs).max_z⟩ := rfl
      _ = ⟨lx, ly, lz, hx, hy, hz⟩ := by rw [e1, e2, e3, e4, e5, e6]
  rw [get_info_stlFile_nil hh hn hw, hbox]

theorem c1_roundtrip_witness :
    get_info (stlFile (List.replicate 80 0) c1recs) =
      some ⟨1, ⟨.fin 0, .fin 0, .fin 0, .fin ((2 ^ 150 : Nat) : Int),
        .fin ((2 ^ 150 : Nat) : Int), .fin ((2 ^ 150 : Nat) : Int)⟩⟩ :=
  c1_roundtrip (List.replicate 80 0) c1recs (.fin 0)
    (.fin ((2 ^ 150 : Nat) : Int)) (.fin 0) (.fin ((2 ^ 150 : Nat) : Int))
    (.fin 0) (.fin ((2 ^ 150 : Nat) : Int)) (by decide) (by decide)
    (by decide) (by decide) (by decide) (by decide) (by decide) (by decide)
    (by decide) (by decide) (by decide) (by decide) (by decide) (by decide)
    (by decide)

/-- Claim C2 (amended): for every well-formed STL input the extraction
succeeds; min ≤ max holds on each axis that carries at least one non-NaN
vertex coordinate (in particular on every axis whenever the coordinates are
ordinary numbers and the count is positive); with zero triangles all three
minima stay +inf and all three maxima stay -inf. -/
theorem c2_bbox_invariant (header : List Nat) (recs : List TriRec)
    (hh : header.length = 80) (hn : recs.length < 2 ^ 32)
    (hw : ∀ t ∈ recs, t.wellFormed) :
    get_info (stlFile header recs) =
        some ⟨recs.length, extractedBox recs⟩ ∧
      (recs = [] → extractedBox recs = initBox) ∧
      ((∃ c ∈ xsOf recs, c ≠ FVal.nan) →
        fle (extractedBox recs).min_x (extractedBox recs).max_x = true) ∧
      ((∃ c ∈ ysOf recs, c ≠ FVal.nan) →
        fle (extractedBox recs).min_y (extractedBox recs).max_y = true) ∧
      ((∃ c ∈ zsOf recs, c ≠ FVal.nan) →
        fle (extractedBox recs).min_z (extractedBox recs).max_z = true) := by
  refine ⟨get_info_stlFile_nil hh hn hw, ?_, ?_, ?_, ?_⟩
  · intro h
    subst h
    rfl
  · intro h
    rw [extractedBox, foldl_updVertex_min_x, foldl_updVertex_max_x]
    exact fle_fold_min_max h
  · intro h
    rw [extractedBox, foldl_updVertex_min_y, foldl_updVertex_max_y]
    exact fle_fold_min_max h
  · intro h
    rw [extractedBox, foldl_updVertex_min_z, foldl_updVertex_max_z]
    exact fle_fold_min_max h

theorem c2_bbox_invariant_witness :
    get_info (stlFile (List.replicate 80 0) c1recs) =
      some ⟨c1recs.length, extractedBox c1recs⟩ ∧
    fle (extractedBox c1recs).min_x (extractedBox c1recs).max_x = true :=
  ⟨(c2_bbox_invariant (List.replicate 80 0) c1recs (by decide) (by decide)
      (by decide)).1,
   (c2_bbox_invariant (List.replicate 80 0) c1recs (by decide) (by decide)
      (by decide)).2.2.1 ⟨FVal.fin 0, by decide, by decide⟩⟩

/-- Counterexample to claim C2 as stated: on a structurally well-formed
file (exactly 84 + 50·1 bytes, count 1) extraction succeeds with triangle
count 1 > 0, yet every per-axis minimum is +inf and every maximum is -inf,
so min ≤ max fails on all three axes. -/
theorem c2_nan_counterexample :
    nanFile.length = 84 + 50 * 1 ∧
      get_info nanFile = some ⟨1, initBox⟩ ∧
      fle initBox.min_x initBox.max_x = false ∧
      fle initBox.min_y initBox.max_y = false ∧
      fle initBox.min_z initBox.max_z = false := by decide

/-- Claim C3 (amended): with N the 32-bit count stored at offset 80 (so the
file has at least 84 bytes), extraction fails with a read error and no
result whenever the file is shorter than 82 + 50·N bytes, i.e. whenever
some 12-byte vertex read comes up short; files in which only the final
record's attribute bytes are missing (length 82+50·N or 83+50·N, still
shorter than 84+50·N) succeed instead. -/
theorem c3_truncation_fails (file : List Nat) (N : Nat)
    (hc : parseCount file = some N) (hlen : file.length < 82 + 50 * N) :
    get_info file = none := by
  have hlen84 : 84 ≤ file.length := by
    by_contra hlt
    push_neg at hlt
    have hne : ¬((file.drop 80).take 4).length = 4 := by
      rw [List.length_take, List.length_drop]
      omega
    rw [parseCount, unpackU32, if_neg hne] at hc
    cases hc
  have hstream : ((file.drop 80).drop 4).length + 2 < 50 * N := by
    simp only [List.length_drop]
    omega
  simp only [get_info, get_info_run, hc,
    triLoop_none_of_short N _ initBox hstream, Option.map_none']

theorem c3_truncation_fails_witness :
    get_info (List.replicate 80 0 ++ [1, 0, 0, 0] ++
      List.replicate 40 0) = none :=
  c3_truncation_fails
    (List.replicate 80 0 ++ [1, 0, 0, 0] ++ List.replicate 40 0) 1
    (by decide) (by decide)

/-- Counterexample to claim C3 as stated: this file is strictly shorter
than 84 + 50·N (132 < 134 with stored count N = 1), yet extraction
succeeds and produces a bounding box, because the attribute read
`f.read(2)` is never length-checked. -/
theorem c3_counterexample :
    parseCount attrTruncFile = some 1 ∧
      attrTruncFile.length < 84 + 50 * 1 ∧
      get_info attrTruncFile = some ⟨1, zeroBox⟩ := by decide

/-- Claim C4: for every input file of at least 84 bytes, the triangle count
the extractor reports equals the unsigned 32-bit little-endian integer at
bytes 80–83, and a completed run has consumed exactly that many 50-byte
records: the stream position ends at byte 84 + 50·N. -/
theorem c4_count_field (file : List Nat) (r : Result) (rest : List Nat)
    (hlen : 84 ≤ file.length) (hrun : get_info_run file = some (r, rest)) :
    r.n = leWord ((file.drop 80).take 4) ∧
      rest = file.drop (84 + 50 * r.n) ∧
      parseCount file = some r.n := by
  have ht4 : ((file.drop 80).take 4).length = 4 := by
    rw [List.length_take, List.length_drop]
    omega
  have hpc : parseCount file = some (leWord ((file.drop 80).take 4)) := by
    rw [parseCount, unpackU32, if_pos ht4]
  rw [get_info_run] at hrun
  simp only [hpc] at hrun
  cases htl : triLoop (leWord ((file.drop 80).take 4))
      ((file.drop 80).drop 4) initBox with
  | none =>
    simp only [htl] at hrun
    exact Option.noConfusion hrun
  | some p =>
    obtain ⟨b, rest2⟩ := p
    simp only [htl] at hrun
    injection hrun with hrun
    have hr : (⟨leWord ((file.drop 80).take 4), b⟩ : Result) = r :=
      congrArg Prod.fst hrun
    have hrest : rest2 = rest := congrArg Prod.snd hrun
    subst hr
    subst hrest
    refine ⟨rfl, ?_, hpc⟩
    have hr2 := triLoop_rest htl
    rw [hr2]
    simp only [List.drop_drop]

theorem c4_count_field_witness :
    84 ≤ oneTriFile.length ∧
      ((⟨1, zeroBox⟩ : Result).n = leWord ((oneTriFile.drop 80).take 4) ∧
        ([] : List Nat) =
          oneTriFile.drop (84 + 50 * (⟨1, zeroBox⟩ : Result).n) ∧
        parseCount oneTriFile = some (⟨1, zeroBox⟩ : Result).n) :=
  ⟨by decide, c4_count_field oneTriFile ⟨1, zeroBox⟩ [] (by decide)
    (by decide)⟩

/-- Claim C5 (amended): the directory scan processes exactly the names
ending in ".stl" — the processed sequence is a permutation of filtering the
listing — and it visits them in lexicographically sorted name order
(Python's `sorted`), not in raw filesystem listing order. -/
theorem c5_scan (listing : List (List Char)) :
    (scanDir listing).Perm (listing.filter endsWithStl) ∧
      List.Sorted (fun a b => charListLe a b = true) (scanDir listing) := by
  constructor
  · exact List.Perm.filter endsWithStl
      (List.perm_insertionSort (fun a b => charListLe a b = true) listing)
  · haveI : IsTotal (List Char) (fun a b => charListLe a b = true) :=
      ⟨charListLe_total⟩
    haveI : IsTrans (List Char) (fun a b => charListLe a b = true) :=
      ⟨fun _ _ _ => charListLe_trans⟩
    exact List.Pairwise.filter endsWithStl
      (List.sorted_insertionSort (fun a b => charListLe a b = true) listing)

/-- Counterexample to claim C5 as stated: the scan visits the ".stl" files
in sorted order, which differs from the (filesystem) listing order, because
the source sorts the listing before iterating. -/
theorem c5_counterexample :
    scanDir demoListing ≠ demoListing.filter endsWithStl ∧
      scanDir demoListing =
        [['a', '.', 's', 't', 'l'], ['b', '.', 's', 't', 'l']] ∧
      demoListing.filter endsWithStl =
        [['b', '.', 's', 't', 'l'], ['a', '.', 's', 't', 'l']] := by decide

/-- Claim C6: the running extrema are monotone: after consuming one more
vertex, each per-axis minimum is ≤ its previous value and each per-axis
maximum is ≥ its previous value, at every prefix of the vertex stream. -/
theorem c6_monotone (vs : List Vertex) (v : Vertex) :
    fle ((foldVerts (vs ++ [v])).min_x) ((foldVerts vs).min_x) = true ∧
      fle ((foldVerts (vs ++ [v])).min_y) ((foldVerts vs).min_y) = true ∧
      fle ((foldVerts (vs ++ [v])).min_z) ((foldVerts vs).min_z) = true ∧
      fle ((foldVerts vs).max_x) ((foldVerts (vs ++ [v])).max_x) = true ∧
      fle ((foldVerts vs).max_y) ((foldVerts (vs ++ [v])).max_y) = true ∧
      fle ((foldVerts vs).max_z) ((foldVerts (vs ++ [v])).max_z) = true := by
  have hstep : foldVerts (vs ++ [v]) = updVertex (foldVerts vs) v := by
    rw [foldVerts, foldVerts, List.foldl_append]
    rfl
  have hm1 : (foldVerts vs).min_x ≠ FVal.nan := by
    rw [foldVerts, foldl_updVertex_min_x]
    exact foldl_pymin_ne_nan _ (by decide)
  have hm2 : (foldVerts vs).min_y ≠ FVal.nan := by
    rw [foldVerts, foldl_updVertex_min_y]
    exact foldl_pymin_ne_nan _ (by decide)
  have hm3 : (foldVerts vs).min_z ≠ FVal.nan := by
    rw [foldVerts, foldl_updVertex_min_z]
    exact foldl_pymin_ne_nan _ (by decide)
  have hm4 : (foldVerts vs).max_x ≠ FVal.nan := by
    rw [foldVerts, foldl_updVertex_max_x]
    exact foldl_pymax_ne_nan _ (by decide)
  have hm5 : (foldVerts vs).max_y ≠ FVal.nan := by
    rw [foldVerts, foldl_updVertex_max_y]
    exact foldl_pymax_ne_nan _ (by decide)
  have hm6 : (foldVerts vs).max_z ≠ FVal.nan := by
    rw [foldVerts, foldl_updVertex_max_z]
    exact foldl_pymax_ne_nan _ (by decide)
  rw [hstep]
  exact ⟨fle_pymin_left hm1, fle_pymin_left hm2, fle_pymin_left hm3,
    pymax_fle_left hm4, pymax_fle_left hm5, pymax_fle_left hm6⟩

/-- Claim C7: the result is unaffected by the ignored byte ranges: two
synthesized STL inputs agreeing on the count and on all vertex coordinate
bytes, but differing arbitrarily in the 80-byte header, the normal vectors
and the attribute fields, extract to identical results. -/
theorem c7_ignored_bytes (h1 h2 : List Nat) (recs1 recs2 : List TriRec)
    (hh1 : h1.length = 80) (hh2 : h2.length = 80)
    (hw1 : ∀ t ∈ recs1, t.wellFormed) (hw2 : ∀ t ∈ recs2, t.wellFormed)
    (hn : recs1.length < 2 ^ 32)
    (hv : recs1.map (fun t => (t.v1, t.v2, t.v3)) =
      recs2.map (fun t => (t.v1, t.v2, t.v3))) :
    get_info (stlFile h1 recs1) = get_info (stlFile h2 recs2) := by
  have hlen : recs1.length = recs2.length := by
    have hl := congrArg List.length hv
    simpa using hl
  have hverts : allVerts recs1 = allVerts recs2 := by
    have e1 : recs1.map TriRec.verts =
        (recs1.map fun t => (t.v1, t.v2, t.v3)).map
          fun p => [decV p.1, decV p.2.1, decV p.2.2] := by
      rw [List.map_map]
      rfl
    have e2 : recs2.map TriRec.verts =
        (recs2.map fun t => (t.v1, t.v2, t.v3)).map
          fun p => [decV p.1, decV p.2.1, decV p.2.2] := by
      rw [List.map_map]
      rfl
    rw [allVerts, allVerts, e1, e2, hv]
  have hbox : extractedBox recs1 = extractedBox recs2 := by
    rw [extractedBox, extractedBox, hverts]
  rw [get_info_stlFile_nil hh1 hn hw1,
    get_info_stlFile_nil hh2 (by omega) hw2, hlen, hbox]

theorem c7_ignored_bytes_witness :
    get_info (stlFile (List.replicate 80 0) c7recsA) =
      get_info (stlFile (List.replicate 80 1) c7recsB) :=
  c7_ignored_bytes (List.replicate 80 0) (List.replicate 80 1) c7recsA
    c7recsB (by decide) (by decide) (by decide) (by decide) (by decide)
    (by decide)

/-- Claim C8: on every successful extraction, each per-axis size in the
printed report equals that axis's final maximum minus its final minimum. -/
theorem c8_sizes (file : List Nat) (rep : Report)
    (h : runReport file = some rep) :
    rep.size_x = fsub rep.box.max_x rep.box.min_x ∧
      rep.size_y = fsub rep.box.max_y rep.box.min_y ∧
      rep.size_z = fsub rep.box.max_z rep.box.min_z := by
  rw [runReport] at h
  cases hg : get_info file with
  | none =>
    rw [hg] at h
    exact Option.noConfusion h
  | some r =>
    rw [hg] at h
    have h2 : mkReport r = rep := by
      have h3 : some (mkReport r) = some rep := h
      injection h3
    subst h2
    exact ⟨rfl, rfl, rfl⟩

theorem c8_sizes_witness :
    (mkReport ⟨1, zeroBox⟩).size_x =
        fsub (mkReport ⟨1, zeroBox⟩).box.max_x
          (mkReport ⟨1, zeroBox⟩).box.min_x ∧
      (mkReport ⟨1, zeroBox⟩).size_y =
        fsub (mkReport ⟨1, zeroBox⟩).box.max_y
          (mkReport ⟨1, zeroBox⟩).box.min_y ∧
      (mkReport ⟨1, zeroBox⟩).size_z =
        fsub (mkReport ⟨1, zeroBox⟩).box.max_z
          (mkReport ⟨1, zeroBox⟩).box.min_z :=
  c8_sizes oneTriFile (mkReport ⟨1, zeroBox⟩) (by decide)

/-- Claim C9: on every invocation — succeeding or aborting with a read
error — the trace of the `with open` block acquires the handle first and
releases it last, and the block's outcome is the body's outcome. -/
theorem c9_handle_released (file : List Nat) :
    (get_info_traced file).1.head? = some FileEv.opened ∧
      (get_info_traced file).1.getLast? = some FileEv.closed ∧
      (get_info_traced file).2 = get_info file :=
  ⟨rfl, rfl, rfl⟩

/-- Claim C10: a file containing the 84-byte preamble and every record's
normal and vertex bytes, truncated only inside the final record's 2-byte
attribute field (`t.attr.take k` keeps any prefix of it), extracts
successfully with the same count and bounding box as the complete file,
because the `f.read(12)`/`f.read(2)` reads of discarded ranges are never
length-checked. -/
theorem c10_attr_truncation (header : List Nat) (recs0 : List TriRec)
    (t : TriRec) (k : Nat) (hh : header.length = 80)
    (hw0 : ∀ u ∈ recs0, u.wellFormed) (ht : t.wellFormed)
    (hn : recs0.length + 1 < 2 ^ 32) :
    get_info (header ++ encodeU32 (recs0 ++ [t]).length ++
        recBytes recs0 ++ t.normal ++ t.v1 ++ t.v2 ++ t.v3 ++
        t.attr.take k) =
      get_info (stlFile header (recs0 ++ [t])) ∧
      (get_info (stlFile header (recs0 ++ [t]))).isSome = true := by
  obtain ⟨hn12, h1, h2, h3, ha⟩ := ht
  have hlen2 : (recs0 ++ [t]).length = recs0.length + 1 := by simp
  have hwAll : ∀ u ∈ recs0 ++ [t], u.wellFormed := by
    intro u hu
    rcases List.mem_append.mp hu with hu | hu
    · exact hw0 u hu
    · rcases List.mem_singleton.mp hu with rfl
      exact ⟨hn12, h1, h2, h3, ha⟩
  have hRHS := get_info_stlFile_nil hh (by omega) hwAll
  have hfile : header ++ encodeU32 (recs0 ++ [t]).length ++
      recBytes recs0 ++ t.normal ++ t.v1 ++ t.v2 ++ t.v3 ++
      t.attr.take k =
      header ++ (encodeU32 (recs0 ++ [t]).length ++ (recBytes recs0 ++
        (t.normal ++ (t.v1 ++ (t.v2 ++ (t.v3 ++ t.attr.take k)))))) := by
    simp [List.append_assoc]
  have henc : (encodeU32 (recs0 ++ [t]).length).length = 4 := rfl
  have hcount : unpackU32 (encodeU32 (recs0 ++ [t]).length) =
      some (recs0 ++ [t]).length := by
    rw [unpackU32, if_pos henc, leWord_encodeU32 (by omega)]
  have hd80 : (header ++ encodeU32 (recs0 ++ [t]).length ++
      recBytes recs0 ++ t.normal ++ t.v1 ++ t.v2 ++ t.v3 ++
      t.attr.take k).drop 80 =
      encodeU32 (recs0 ++ [t]).length ++ (recBytes recs0 ++
        (t.normal ++ (t.v1 ++ (t.v2 ++ (t.v3 ++ t.attr.take k))))) := by
    rw [hfile]
    exact List.drop_left' hh
  have ht4 : ((header ++ encodeU32 (recs0 ++ [t]).length ++
      recBytes recs0 ++ t.normal ++ t.v1 ++ t.v2 ++ t.v3 ++
      t.attr.take k).drop 80).take 4 =
      encodeU32 (recs0 ++ [t]).length := by
    rw [hd80]
    exact List.take_left' henc
  have hd4 : ((header ++ encodeU32 (recs0 ++ [t]).length ++
      recBytes recs0 ++ t.normal ++ t.v1 ++ t.v2 ++ t.v3 ++
      t.attr.take k).drop 80).drop 4 =
      recBytes recs0 ++
        (t.normal ++ (t.v1 ++ (t.v2 ++ (t.v3 ++ t.attr.take k)))) := by
    rw [hd80]
    exact List.drop_left' henc
  have htk : (t.attr.take k).length ≤ 2 := by
    rw [List.length_take]
    omega
  have htr : triLoop (recs0 ++ [t]).length (recBytes recs0 ++
      (t.normal ++ (t.v1 ++ (t.v2 ++ (t.v3 ++ t.attr.take k)))))
      initBox = some (extractedBox (recs0 ++ [t]), []) := by
    rw [hlen2, triLoop_recBytes_add recs0 1 _ initBox hw0,
      triLoop_lastRec _ hn12 h1 h2 h3 htk]
    have hbox : extractedBox (recs0 ++ [t]) =
        updVertex (updVertex (updVertex
          (List.foldl updVertex initBox (allVerts recs0)) (decV t.v1))
          (decV t.v2)) (decV t.v3) := by
      simp [extractedBox, allVerts, TriRec.verts, List.foldl_append]
    rw [hbox]
  have hLHS : get_info (header ++ encodeU32 (recs0 ++ [t]).length ++
      recBytes recs0 ++ t.normal ++ t.v1 ++ t.v2 ++ t.v3 ++
      t.attr.take k) =
      some ⟨(recs0 ++ [t]).length, extractedBox (recs0 ++ [t])⟩ := by
    rw [get_info, get_info_run, parseCount, ht4]
    simp only [hcount, hd4, htr]
    rfl
  refine ⟨?_, ?_⟩
  · rw [hLHS, hRHS]
  · rw [hRHS]
    rfl

theorem c10_attr_truncation_witness :
    get_info (List.replicate 80 0 ++ encodeU32 ([] ++ [c10rec]).length ++
        recBytes [] ++ c10rec.normal ++ c10rec.v1 ++ c10rec.v2 ++
        c10rec.v3 ++ c10rec.attr.take 0) =
      get_info (stlFile (List.replicate 80 0) ([] ++ [c10rec])) ∧
      (get_info (stlFile (List.replicate 80 0) ([] ++ [c10rec]))).isSome =
        true :=
  c10_attr_truncation (List.replicate 80 0) [] c10rec 0 (by decide)
    (by decide) (by decide) (by decide)
